import Mathlib

/-!
# Verification of the label reconciliation engine (`lamindb/validation/_register.py`)

This file gives a shallow embedding of the label-reconciliation code in
`src/lamindb/validation/_register.py` — the functions `register_labels`,
`register_labels_from_using_instance` and `register_ulabels_with_parent` —
together with models of the registry-access collaborators they consume
(membership inspection, record construction from values, upsert-style saving,
the parent/child adjacency relation).

Raw label values, and the records they map to, are identified by their field
value (a `String`); the uniqueness invariant of the data model (one canonical
record per registry-field value) makes this identification faithful.  The
shared mutable world visible to the engine (the local registry contents per
field, the secondary-instance registries, the public reference vocabulary, the
process-wide verbosity flag, the parent/child links) is a single `Env` record
threaded through the functions.  External round trips may fail; failure is
injected by an oracle (`failAt`/`clock`) so that theorems can quantify over
"an exception is raised at any stage".
-/

set_option autoImplicit false

namespace LaminDB

/-- A raw categorical value, and equally the identity of the canonical record
bearing it (the data-model uniqueness invariant makes values and records
interchangeable for one registry-field pair). -/
abbrev Value := String

/-- The registry model bound to a field (`field.field.model` in the source).
`ulabel` stands for `ln.ULabel`, `feature` for `ln.Feature`, and `bionty b`
for the public-reference-backed registries (the only ones with a `public`
attribute); `b` records whether the registry is organism-scoped. -/
inductive RegistryKind where
  | ulabel : RegistryKind
  | feature : RegistryKind
  | bionty : Bool → RegistryKind
deriving DecidableEq, Repr

/-- `hasattr(registry, "public")`: only the bionty registries expose a public
reference vocabulary. -/
def RegistryKind.hasPublic : RegistryKind → Bool
  | .bionty _ => true
  | _ => false

/-- `registry == ln.ULabel`. -/
def RegistryKind.isULabel : RegistryKind → Bool
  | .ulabel => true
  | _ => false

/-- `registry == ln.Feature`. -/
def RegistryKind.isFeature : RegistryKind → Bool
  | .feature => true
  | _ => false

/-- Whether the registry requires disambiguating organism context. -/
def RegistryKind.needsOrganism : RegistryKind → Bool
  | .bionty b => b
  | _ => false

/-- A `FieldAttr`: the (registry model, attribute name) pair used as the join
key for validation (`field.field.model` / `field.field.name`). -/
structure FieldAttr where
  model : RegistryKind
  name : String
deriving DecidableEq, Repr

/-- A dataframe, reduced to the only part the engine reads: its column labels. -/
structure DataFrame where
  columns : List Value
deriving DecidableEq, Repr

/-- The result of a registry inspection: an exact, disjoint partition of the
distinct input values. -/
structure InspectResult where
  validated : List Value
  non_validated : List Value
deriving DecidableEq, Repr

/-- Errors the engine can propagate: a missing-context error raised before any
network round trip, a failed external round trip (injected by the fault
oracle), and a failed `assert`. -/
inductive Err where
  | missingOrganism : Err
  | fault : Err
  | assertFailed : Err
deriving DecidableEq, Repr

/-- The world state threaded through the engine.

* `localVals` — field values of the records present in the local registry
  under the field of the current call;
* `usingVals` — for each named secondary instance, the field values validated
  there;
* `pub` — which values the public reference vocabulary can construct;
* `verbosity` — the process-wide verbosity setting (`ln.settings.verbosity`);
* `saves` — how many records/links have been inserted so far (write counter);
* `fromValuesCalls` — how many times the public-reference construction
  primitive has been invoked;
* `createdPlaceholders` — field values of the records created by the
  placeholder-registrar stage;
* `parentLinks` — the parent/child adjacency pairs of the label registry;
* `clock`/`failAt` — fault-injection oracle: the external round trip numbered
  `clock` raises iff `failAt = some clock`. -/
structure Env where
  localVals : List Value
  usingVals : String → List Value
  pub : Value → Bool
  verbosity : String
  saves : Nat
  fromValuesCalls : Nat
  createdPlaceholders : List Value
  parentLinks : List (Value × Value)
  clock : Nat
  failAt : Option Nat

/-- Advance the fault clock past one external round trip. -/
def Env.step (e : Env) : Env := { e with clock := e.clock + 1 }

/-- Whether the next external round trip raises. -/
def Env.fails (e : Env) : Bool := decide (e.failAt = some e.clock)

/-- Model of registry membership inspection (`registry.inspect(values, field,
mute=True, **kwargs)`): partitions the distinct input values by presence under
the field in the given record set.  Duplicates are coalesced; the partition is
exact and disjoint.  Silent (no logging is modelled). -/
def inspect (present : List Value) (values : List Value) : InspectResult :=
  { validated := values.dedup.filter (fun v => decide (v ∈ present)),
    non_validated := values.dedup.filter (fun v => decide (v ∉ present)) }

/-- Model of `registry.from_values(values, field=field, **kwargs)`: for a
registry with a public reference, constructs one record per distinct input
value the reference can resolve; for a registry without one, loads the
existing (validated) records matching the input values.  Either way every
returned record bears a field value drawn from the input. -/
def from_values (e : Env) (r : RegistryKind) (values : List Value) : List Value :=
  if r.hasPublic then values.dedup.filter e.pub
  else values.dedup.filter (fun v => decide (v ∈ e.localVals))

/-- Model of persisting one record (`record.save()` / an element of
`ln.save(...)`).  Persisting is an upsert, safe to repeat for the same logical
value: saving a record whose field value is already present changes nothing,
otherwise the value is inserted and the write counter incremented. -/
def saveRecord (e : Env) (v : Value) : Env :=
  if v ∈ e.localVals then e
  else { e with localVals := v :: e.localVals, saves := e.saves + 1 }

/-- Model of `ln.save(records)` on a list of records. -/
def saveRecords (e : Env) (vs : List Value) : Env := vs.foldl saveRecord e

/-- Model of the parent/child m2m relation update
`is_feature.children.add(*all_records)`: adding an already-linked child is a
no-op, a new pair is inserted and counted as a write. -/
def linkChildren (e : Env) (parent : Value) (children : List Value) : Env :=
  children.foldl
    (fun acc c =>
      if (parent, c) ∈ acc.parentLinks then acc
      else { acc with parentLinks := (parent, c) :: acc.parentLinks, saves := acc.saves + 1 })
    e

/-- Modelled from the spec: `ln.Feature.from_df(df)` is lamindb code outside
the provided source files.  Per §4.4 (dataframe-derived mode: "derive
candidate feature records from the dataframe's column labels"), it returns one
candidate feature record per distinct column label. -/
def from_df (df : DataFrame) : List Value := df.columns.dedup

/-- Modelled from the spec: `check_if_registry_needs_organism` lives in
`lamindb/validation/_validate.py`, which is not among the provided source
files.  Per §6 ("Context requirement predicate") and §7 ("Missing-context
error ... fails before any network round trip"), it raises when the registry
requires organism context and none was supplied, and otherwise passes. -/
def check_if_registry_needs_organism (r : RegistryKind) (organism : Option String) :
    Except Err Unit :=
  if r.needsOrganism && organism.isNone then .error .missingOrganism else .ok ()

/-! ## The `labels_registered` dict

The source accumulates its resolution partition in a Python dict whose keys
are the strings `f"from {using}"`, `"from public"` and `"without reference"`.
A Python dict is an insertion-ordered association list: assigning to an
existing key overwrites it in place, assigning to a new key appends.  The
f-string key is modelled by `usingKey` (Python formats `None` as `"None"`). -/

/-- An insertion-ordered string-keyed map of value lists (a Python dict). -/
abbrev LabelsDict := List (String × List Value)

/-- Python dict assignment `d[k] = v`: overwrite in place or append. -/
def dictSet : LabelsDict → String → List Value → LabelsDict
  | [], k, v => [(k, v)]
  | (k', v') :: rest, k, v =>
    if k' = k then (k, v) :: rest else (k', v') :: dictSet rest k v

/-- Python dict lookup `d[k]` (the engine only reads keys it has written;
a missing key is rendered as the empty bucket). -/
def dictGet : LabelsDict → String → List Value
  | [], _ => []
  | (k', v') :: rest, k => if k' = k then v' else dictGet rest k

/-- The dict key `f"from {using}"`; Python formats `None` as `"None"`. -/
def usingKey : Option String → String
  | none => "from None"
  | some u => "from " ++ u

/-- The report §6 says a reconciliation call should return: the bucket map
plus the identity of any created parent label. -/
structure RegReport where
  partition : LabelsDict
  parent : Option Value
deriving DecidableEq, Repr

/-- The observable outcome of one `register_labels` call: `ret` is the Python
return value (the source function has no `return value` statement on any path,
so the source only ever produces `none`; the type is wide enough to state what
a structured report would be), and `logged` is the bucket map handed to
`log_registered_labels` (`none` when the call exits before logging). -/
structure RegOut where
  ret : Option RegReport
  logged : Option LabelsDict
deriving DecidableEq, Repr

/-- The arguments of `register_labels`.  `kwargs` is reduced to the only part
the control flow reads, `kwargs.get("organism")`; the remaining keyword
arguments only decorate created records, which the value-level model
identifies by their field value. -/
structure Args where
  values : List Value
  field : FieldAttr
  feature_name : String
  usingName : Option String
  validated_only : Bool
  organism : Option String
  df : Option DataFrame

/-! ## The three source functions -/

/-- Embedding of `register_labels_from_using_instance(values, field, using,
kwargs)`.  When `using` is absent or the local sentinel `"default"`, the
function is a no-op returning `([], values)`.  Otherwise it resolves a handle
to the named instance (`_registry_using`, an external round trip covered by
the fault site), inspects that instance, loads the records for the values
validated there (`registry_using.filter(field__in=validated)` — by the
uniqueness invariant, one record per validated value, bearing that value),
saves each into the local registry while collecting its field value, and
returns the collected values together with the instance's non-validated
remainder. -/
def register_labels_from_using_instance (e : Env) (values : List Value)
    (field : FieldAttr) (usingName : Option String) :
    Except Err (List Value × List Value) × Env :=
  match usingName with
  | none => (.ok ([], values), e)
  | some u =>
    if u = "default" then (.ok ([], values), e)
    else
      if e.fails then (.error .fault, e.step)
      else
        let e := e.step
        let inspect_result_using := inspect (e.usingVals u) values
        let labels_using := inspect_result_using.validated
        let e := saveRecords e labels_using
        (.ok (labels_using, inspect_result_using.non_validated), e)

/-- Embedding of the public-reference block of `register_labels`:

```
from_values_records = (registry.from_values(non_validated_labels, field=field, **kwargs)
                       if len(non_validated_labels) > 0 else [])
ln.save(from_values_records)
```

`fromValuesCalls` counts the invocations of the construction primitive; it is
not bumped when the input set is empty and the stage is skipped. -/
def public_reference_stage (e : Env) (registry : RegistryKind)
    (non_validated_labels : List Value) : List Value × Env :=
  if non_validated_labels.length > 0 then
    let e := { e with fromValuesCalls := e.fromValuesCalls + 1 }
    let records := from_values e registry non_validated_labels
    (records, saveRecords e records)
  else ([], e)

/-- Embedding of the `if not validated_only:` block of `register_labels`.
When a dataframe is supplied and the registry is the feature registry, the
candidate records come from `ln.Feature.from_df(df)` and the
`"without reference"` bucket is recomputed from the dataframe's columns;
otherwise one minimal record per `"without reference"` value is constructed
(`registry(**kwargs)` with the field set to the value) and bulk-saved.
`createdPlaceholders` records the field values of the records this stage
constructs. -/
def placeholder_stage (e : Env) (registry : RegistryKind) (validated_only : Bool)
    (df : Option DataFrame) (labels_registered : LabelsDict) (usingKeyStr : String) :
    LabelsDict × Env :=
  if validated_only then (labels_registered, e)
  else
    match df, registry.isFeature with
    | some d, true =>
      let non_validated_records := from_df d
      let labels_registered := dictSet labels_registered "without reference"
        (d.columns.filter (fun col =>
          decide (col ∉ dictGet labels_registered "from public") &&
          decide (col ∉ dictGet labels_registered usingKeyStr)))
      let e := saveRecords e non_validated_records
      (labels_registered,
       { e with createdPlaceholders := e.createdPlaceholders ++ non_validated_records })
    | _, _ =>
      let non_validated_records := dictGet labels_registered "without reference"
      let e := saveRecords e non_validated_records
      (labels_registered,
       { e with createdPlaceholders := e.createdPlaceholders ++ non_validated_records })

/-- Embedding of `register_ulabels_with_parent(values, field, feature_name)`:
assert the registry is the free-form label registry, materialize the records
for `values` under the field, look up a parent named `is_<feature_name>`
(by the uniqueness invariant, presence of the value decides
`filter(...).one_or_none()`), create and save it only when absent, and link
all materialized records as its children. -/
def register_ulabels_with_parent (e : Env) (values : List Value) (field : FieldAttr)
    (feature_name : String) : Except Err Unit × Env :=
  if field.model.isULabel then
    if e.fails then (.error .fault, e.step)
    else
      let e := e.step
      let all_records := from_values e field.model values
      let parentName := "is_" ++ feature_name
      if parentName ∈ e.localVals then
        (.ok (), linkChildren e parentName all_records)
      else
        (.ok (), linkChildren (saveRecord e parentName) parentName all_records)
  else (.error .assertFailed, e)

/-- Embedding of the final conditional of `register_labels`:

```
if registry == ln.ULabel and field.field.name == "name":
    register_ulabels_with_parent(values, field=field, feature_name=feature_name)
``` -/
def hierarchy_stage (e : Env) (registry : RegistryKind) (values : List Value)
    (field : FieldAttr) (feature_name : String) : Except Err Unit × Env :=
  if registry.isULabel && decide (field.name = "name") then
    register_ulabels_with_parent e values field feature_name
  else (.ok (), e)

/-- Embedding of the `try:` block of `register_labels` (the caller has
already set the verbosity to `"error"` and passes the saved prior value
`verbosity` for the early-return path, which restores it before returning).
`validated_only` is the effective flag after the `hasattr(registry,
"public")` adjustment done by the caller. -/
def register_labels_try (e : Env) (verbosity : String) (validated_only : Bool)
    (a : Args) : Except Err RegOut × Env :=
  let registry := a.field.model
  if e.fails then (.error .fault, e.step)
  else
    let e := e.step
    let inspect_result_current := inspect e.localVals a.values
    if inspect_result_current.non_validated.length = 0 then
      (.ok { ret := none, logged := none }, { e with verbosity := verbosity })
    else
      let labels_registered : LabelsDict := [("from public", []), ("without reference", [])]
      match register_labels_from_using_instance e inspect_result_current.non_validated
          a.field a.usingName with
      | (.error err, e) => (.error err, e)
      | (.ok (fromUsing, non_validated_labels), e) =>
        let labels_registered := dictSet labels_registered (usingKey a.usingName) fromUsing
        if e.fails then (.error .fault, e.step)
        else
          let e := e.step
          let pr := public_reference_stage e registry non_validated_labels
          let from_values_records := pr.1
          let e := pr.2
          let labels_registered := dictSet labels_registered "from public" from_values_records
          let labels_registered := dictSet labels_registered "without reference"
            (non_validated_labels.filter
              (fun i => decide (i ∉ dictGet labels_registered "from public")))
          if e.fails then (.error .fault, e.step)
          else
            let e := e.step
            let ps := placeholder_stage e registry validated_only a.df labels_registered
              (usingKey a.usingName)
            let labels_registered := ps.1
            let e := ps.2
            match hierarchy_stage e registry a.values a.field a.feature_name with
            | (.error err, e) => (.error err, e)
            | (.ok _, e) =>
              (.ok { ret := none, logged := some labels_registered }, e)

/-- Embedding of `register_labels(values, field, feature_name, using,
validated_only, kwargs, df)`.  In source order: bind the registry, force
`validated_only = False` when the registry has no `public` attribute, run the
organism-context check (before the verbosity guard — a missing-context error
leaves the verbosity untouched), save the prior verbosity, overwrite it with
`"error"`, run the `try:` body, and restore the prior verbosity on every exit
path (the `finally:` block).  `log_registered_labels` runs after the
`finally:`; it only feeds the logging sink, which the model captures in the
`logged` field of the outcome. -/
def register_labels (e : Env) (a : Args) : Except Err RegOut × Env :=
  let registry := a.field.model
  let validated_only := registry.hasPublic && a.validated_only
  match check_if_registry_needs_organism registry a.organism with
  | .error err => (.error err, e)
  | .ok _ =>
    let verbosity := e.verbosity
    match register_labels_try { e with verbosity := "error" } verbosity validated_only a with
    | (.error err, e2) => (.error err, { e2 with verbosity := verbosity })
    | (.ok out, e2) => (.ok out, { e2 with verbosity := verbosity })

/-- The Python return value of a call (`none` for an exceptional exit). -/
def retOf : Except Err RegOut × Env → Option RegReport
  | (.ok out, _) => out.ret
  | (.error _, _) => none

/-- The bucket map a call hands to `log_registered_labels` (`none` when the
call exits before logging). -/
def loggedOf : Except Err RegOut × Env → Option LabelsDict
  | (.ok out, _) => out.logged
  | (.error _, _) => none

/-! ## Basic lemmas about the environment operations -/

@[simp] theorem step_localVals (e : Env) : e.step.localVals = e.localVals := rfl

@[simp] theorem step_usingVals (e : Env) : e.step.usingVals = e.usingVals := rfl

@[simp] theorem step_pub (e : Env) : e.step.pub = e.pub := rfl

@[simp] theorem step_verbosity (e : Env) : e.step.verbosity = e.verbosity := rfl

@[simp] theorem step_saves (e : Env) : e.step.saves = e.saves := rfl

@[simp] theorem step_fromValuesCalls (e : Env) : e.step.fromValuesCalls = e.fromValuesCalls := rfl

@[simp] theorem step_createdPlaceholders (e : Env) :
    e.step.createdPlaceholders = e.createdPlaceholders := rfl

@[simp] theorem step_parentLinks (e : Env) : e.step.parentLinks = e.parentLinks := rfl

@[simp] theorem step_failAt (e : Env) : e.step.failAt = e.failAt := rfl

theorem fails_eq_false (e : Env) (hf : e.failAt = none) : e.fails = false := by
  simp [Env.fails, hf]

@[simp] theorem saveRecord_usingVals (e : Env) (v : Value) :
    (saveRecord e v).usingVals = e.usingVals := by
  unfold saveRecord; split <;> rfl

@[simp] theorem saveRecord_pub (e : Env) (v : Value) : (saveRecord e v).pub = e.pub := by
  unfold saveRecord; split <;> rfl

@[simp] theorem saveRecord_verbosity (e : Env) (v : Value) :
    (saveRecord e v).verbosity = e.verbosity := by
  unfold saveRecord; split <;> rfl

@[simp] theorem saveRecord_fromValuesCalls (e : Env) (v : Value) :
    (saveRecord e v).fromValuesCalls = e.fromValuesCalls := by
  unfold saveRecord; split <;> rfl

@[simp] theorem saveRecord_createdPlaceholders (e : Env) (v : Value) :
    (saveRecord e v).createdPlaceholders = e.createdPlaceholders := by
  unfold saveRecord; split <;> rfl

@[simp] theorem saveRecord_parentLinks (e : Env) (v : Value) :
    (saveRecord e v).parentLinks = e.parentLinks := by
  unfold saveRecord; split <;> rfl

@[simp] theorem saveRecord_clock (e : Env) (v : Value) : (saveRecord e v).clock = e.clock := by
  unfold saveRecord; split <;> rfl

@[simp] theorem saveRecord_failAt (e : Env) (v : Value) :
    (saveRecord e v).failAt = e.failAt := by
  unfold saveRecord; split <;> rfl

theorem saveRecord_localVals_mem (e : Env) (v w : Value) :
    w ∈ (saveRecord e v).localVals ↔ w = v ∨ w ∈ e.localVals := by
  unfold saveRecord
  split
  · constructor
    · exact Or.inr
    · rintro (rfl | h) <;> [assumption; assumption]
  · simp [List.mem_cons]

theorem saveRecord_eq_self (e : Env) (v : Value) (h : v ∈ e.localVals) :
    saveRecord e v = e := by
  unfold saveRecord; simp [h]

@[simp] theorem saveRecords_nil (e : Env) : saveRecords e [] = e := rfl

@[simp] theorem saveRecords_cons (e : Env) (v : Value) (vs : List Value) :
    saveRecords e (v :: vs) = saveRecords (saveRecord e v) vs := rfl

@[simp] theorem saveRecords_usingVals (e : Env) (vs : List Value) :
    (saveRecords e vs).usingVals = e.usingVals := by
  induction vs generalizing e with
  | nil => rfl
  | cons v vs ih => simp [ih]

@[simp] theorem saveRecords_pub (e : Env) (vs : List Value) :
    (saveRecords e vs).pub = e.pub := by
  induction vs generalizing e with
  | nil => rfl
  | cons v vs ih => simp [ih]

@[simp] theorem saveRecords_verbosity (e : Env) (vs : List Value) :
    (saveRecords e vs).verbosity = e.verbosity := by
  induction vs generalizing e with
  | nil => rfl
  | cons v vs ih => simp [ih]

@[simp] theorem saveRecords_fromValuesCalls (e : Env) (vs : List Value) :
    (saveRecords e vs).fromValuesCalls = e.fromValuesCalls := by
  induction vs generalizing e with
  | nil => rfl
  | cons v vs ih => simp [ih]

@[simp] theorem saveRecords_createdPlaceholders (e : Env) (vs : List Value) :
    (saveRecords e vs).createdPlaceholders = e.createdPlaceholders := by
  induction vs generalizing e with
  | nil => rfl
  | cons v vs ih => simp [ih]

@[simp] theorem saveRecords_parentLinks (e : Env) (vs : List Value) :
    (saveRecords e vs).parentLinks = e.parentLinks := by
  induction vs generalizing e with
  | nil => rfl
  | cons v vs ih => simp [ih]

@[simp] theorem saveRecords_clock (e : Env) (vs : List Value) :
    (saveRecords e vs).clock = e.clock := by
  induction vs generalizing e with
  | nil => rfl
  | cons v vs ih => simp [ih]

@[simp] theorem saveRecords_failAt (e : Env) (vs : List Value) :
    (saveRecords e vs).failAt = e.failAt := by
  induction vs generalizing e with
  | nil => rfl
  | cons v vs ih => simp [ih]

theorem saveRecords_localVals_mem (e : Env) (vs : List Value) (w : Value) :
    w ∈ (saveRecords e vs).localVals ↔ w ∈ vs ∨ w ∈ e.localVals := by
  induction vs generalizing e with
  | nil => simp
  | cons v vs ih =>
    simp only [saveRecords_cons, ih, saveRecord_localVals_mem, List.mem_cons]
    tauto

theorem saveRecords_eq_self (e : Env) (vs : List Value)
    (h : ∀ v ∈ vs, v ∈ e.localVals) : saveRecords e vs = e := by
  induction vs with
  | nil => rfl
  | cons v vs ih =>
    rw [saveRecords_cons, saveRecord_eq_self e v (h v (List.mem_cons_self v vs))]
    exact ih fun w hw => h w (List.mem_cons_of_mem v hw)

@[simp] theorem linkChildren_localVals (e : Env) (p : Value) (cs : List Value) :
    (linkChildren e p cs).localVals = e.localVals := by
  induction cs generalizing e with
  | nil => rfl
  | cons c cs ih =>
    unfold linkChildren at ih ⊢
    simp only [List.foldl_cons]
    rw [ih]
    split <;> rfl

@[simp] theorem linkChildren_verbosity (e : Env) (p : Value) (cs : List Value) :
    (linkChildren e p cs).verbosity = e.verbosity := by
  induction cs generalizing e with
  | nil => rfl
  | cons c cs ih =>
    unfold linkChildren at ih ⊢
    simp only [List.foldl_cons]
    rw [ih]
    split <;> rfl

@[simp] theorem linkChildren_failAt (e : Env) (p : Value) (cs : List Value) :
    (linkChildren e p cs).failAt = e.failAt := by
  induction cs generalizing e with
  | nil => rfl
  | cons c cs ih =>
    unfold linkChildren at ih ⊢
    simp only [List.foldl_cons]
    rw [ih]
    split <;> rfl

@[simp] theorem linkChildren_clock (e : Env) (p : Value) (cs : List Value) :
    (linkChildren e p cs).clock = e.clock := by
  induction cs generalizing e with
  | nil => rfl
  | cons c cs ih =>
    unfold linkChildren at ih ⊢
    simp only [List.foldl_cons]
    rw [ih]
    split <;> rfl

@[simp] theorem linkChildren_createdPlaceholders (e : Env) (p : Value) (cs : List Value) :
    (linkChildren e p cs).createdPlaceholders = e.createdPlaceholders := by
  induction cs generalizing e with
  | nil => rfl
  | cons c cs ih =>
    unfold linkChildren at ih ⊢
    simp only [List.foldl_cons]
    rw [ih]
    split <;> rfl

@[simp] theorem linkChildren_fromValuesCalls (e : Env) (p : Value) (cs : List Value) :
    (linkChildren e p cs).fromValuesCalls = e.fromValuesCalls := by
  induction cs generalizing e with
  | nil => rfl
  | cons c cs ih =>
    unfold linkChildren at ih ⊢
    simp only [List.foldl_cons]
    rw [ih]
    split <;> rfl

theorem linkChildren_eq_self (e : Env) (p : Value) (cs : List Value)
    (h : ∀ c ∈ cs, (p, c) ∈ e.parentLinks) : linkChildren e p cs = e := by
  induction cs with
  | nil => rfl
  | cons c cs ih =>
    unfold linkChildren at ih ⊢
    simp only [List.foldl_cons]
    rw [if_pos (h c (List.mem_cons_self c cs))]
    exact ih fun w hw => h w (List.mem_cons_of_mem c hw)

/-! ## Dict and key lemmas -/

theorem dictGet_dictSet_same (d : LabelsDict) (k : String) (v : List Value) :
    dictGet (dictSet d k v) k = v := by
  induction d with
  | nil => simp [dictSet, dictGet]
  | cons p rest ih =>
    obtain ⟨k', v'⟩ := p
    unfold dictSet
    by_cases h : k' = k
    · simp [h, dictGet]
    · simp only [if_neg h]
      unfold dictGet
      rw [if_neg h]
      exact ih

theorem dictGet_dictSet_ne (d : LabelsDict) (k k' : String) (v : List Value)
    (h : k ≠ k') : dictGet (dictSet d k v) k' = dictGet d k' := by
  induction d with
  | nil => simp [dictSet, dictGet, h]
  | cons p rest ih =>
    obtain ⟨k0, v0⟩ := p
    unfold dictSet
    by_cases h0 : k0 = k
    · subst h0
      simp [dictGet, h]
    · simp only [if_neg h0]
      unfold dictGet
      by_cases h1 : k0 = k'
      · simp [h1]
      · simp only [if_neg h1]
        exact ih

theorem usingKey_ne_withoutReference (o : Option String) :
    usingKey o ≠ "without reference" := by
  cases o with
  | none => decide
  | some u =>
    intro h
    have hd := congrArg String.data h
    rw [usingKey] at hd
    rw [String.data_append] at hd
    simp [String.data] at hd

theorem usingKey_eq_fromPublic_iff (o : Option String) :
    usingKey o = "from public" ↔ o = some "public" := by
  cases o with
  | none => simp [usingKey]
  | some u =>
    simp only [usingKey, Option.some.injEq]
    constructor
    · intro h
      have hd := congrArg String.data h
      rw [String.data_append] at hd
      simp [String.data] at hd
      exact String.ext hd
    · rintro rfl; rfl

/-! ## The fault-free normal form

`usingResult`, `hierarchySpec` and `runSpec` restate the guarded functions
with the fault plumbing removed; `register_labels_ok` and
`register_labels_early` prove that a fault-free run of the embedded source
equals this normal form.  All invariant reasoning then happens on the normal
form. -/

/-- Fault-free result of `register_labels_from_using_instance`. -/
def usingResult (e : Env) (values : List Value) (usingName : Option String) :
    (List Value × List Value) × Env :=
  match usingName with
  | none => (([], values), e)
  | some u =>
    if u = "default" then (([], values), e)
    else
      let e := e.step
      let res := inspect (e.usingVals u) values
      ((res.validated, res.non_validated), saveRecords e res.validated)

/-- Fault-free effect of the hierarchy-linking conditional. -/
def hierarchySpec (e : Env) (registry : RegistryKind) (values : List Value)
    (field : FieldAttr) (feature_name : String) : Env :=
  if registry.isULabel && decide (field.name = "name") then
    let e := e.step
    let all_records := from_values e field.model values
    let parentName := "is_" ++ feature_name
    let e := if parentName ∈ e.localVals then e else saveRecord e parentName
    linkChildren e parentName all_records
  else e

/-- Fault-free normal form of the non-early-return path of the `try:` body:
the final bucket map together with the final environment (verbosity still
`"error"`; the caller restores it). -/
def runSpec (e0 : Env) (a : Args) : LabelsDict × Env :=
  let registry := a.field.model
  let validated_only := registry.hasPublic && a.validated_only
  let e1 := e0.step
  let nv := (inspect e1.localVals a.values).non_validated
  let d0 : LabelsDict := [("from public", []), ("without reference", [])]
  let ur := usingResult e1 nv a.usingName
  let fromUsing := ur.1.1
  let rem := ur.1.2
  let e2 := (ur.2).step
  let d1 := dictSet d0 (usingKey a.usingName) fromUsing
  let pr := public_reference_stage e2 registry rem
  let pubs := pr.1
  let e3 := pr.2
  let d2 := dictSet d1 "from public" pubs
  let d3 := dictSet d2 "without reference"
    (rem.filter (fun i => decide (i ∉ dictGet d2 "from public")))
  let ps := placeholder_stage (e3.step) registry validated_only a.df d3 (usingKey a.usingName)
  let d4 := ps.1
  let e4 := ps.2
  let e5 := hierarchySpec e4 registry a.values a.field a.feature_name
  (d4, e5)

theorem usingResult_failAt (e : Env) (values : List Value) (o : Option String) :
    (usingResult e values o).2.failAt = e.failAt := by
  unfold usingResult
  cases o with
  | none => rfl
  | some u =>
    by_cases h : u = "default" <;> simp [h]

theorem register_labels_from_using_instance_ok (e : Env) (values : List Value)
    (field : FieldAttr) (o : Option String) (hf : e.failAt = none) :
    register_labels_from_using_instance e values field o =
      (.ok ((usingResult e values o).1.1, (usingResult e values o).1.2),
       (usingResult e values o).2) := by
  unfold register_labels_from_using_instance usingResult
  cases o with
  | none => rfl
  | some u =>
    by_cases h : u = "default"
    · simp [h]
    · simp [h, fails_eq_false e hf]

theorem public_reference_stage_failAt (e : Env) (r : RegistryKind) (vs : List Value) :
    (public_reference_stage e r vs).2.failAt = e.failAt := by
  unfold public_reference_stage
  split <;> simp

theorem placeholder_stage_failAt (e : Env) (r : RegistryKind) (vo : Bool)
    (df : Option DataFrame) (d : LabelsDict) (k : String) :
    (placeholder_stage e r vo df d k).2.failAt = e.failAt := by
  unfold placeholder_stage
  split
  · rfl
  · split <;> simp

theorem hierarchy_stage_ok (e : Env) (values : List Value)
    (field : FieldAttr) (feature_name : String) (hf : e.failAt = none) :
    hierarchy_stage e field.model values field feature_name =
      (.ok (), hierarchySpec e field.model values field feature_name) := by
  unfold hierarchy_stage hierarchySpec register_ulabels_with_parent
  by_cases h : field.model.isULabel && decide (field.name = "name")
  · rw [if_pos h, if_pos h]
    have hu : field.model.isULabel = true := by
      rcases Bool.and_eq_true_iff.mp h with ⟨h1, _⟩
      exact h1
    rw [if_pos hu, if_neg (by simp [fails_eq_false e hf])]
    by_cases hp : ("is_" ++ feature_name) ∈ e.localVals <;> simp [hp]
  · rw [if_neg h, if_neg h]

/-- Fault-free, context-check-passing, non-fully-validated runs of
`register_labels` compute the normal form `runSpec` (started from the
environment with verbosity overwritten to `"error"`), log its bucket map,
return `None`, and restore the verbosity. -/
theorem register_labels_ok (e : Env) (a : Args) (hf : e.failAt = none)
    (hc : check_if_registry_needs_organism a.field.model a.organism = .ok ())
    (hne : (inspect e.localVals a.values).non_validated ≠ []) :
    register_labels e a =
      (.ok { ret := none,
             logged := some (runSpec { e with verbosity := "error" } a).1 },
       { (runSpec { e with verbosity := "error" } a).2 with verbosity := e.verbosity }) := by
  have hne' : ¬ (inspect e.localVals a.values).non_validated.length = 0 := by
    simpa [List.length_eq_zero] using hne
  simp only [register_labels, register_labels_try, runSpec, hc]
  rw [if_neg (by simp [fails_eq_false _ (show ({ e with verbosity := "error" } : Env).failAt = none from hf)])]
  rw [if_neg (by simpa using hne')]
  rw [register_labels_from_using_instance_ok _ _ _ _ (by simp [hf])]
  simp [fails_eq_false, usingResult_failAt, public_reference_stage_failAt,
    placeholder_stage_failAt, hf, hierarchy_stage_ok]

/-- When the local inspection validates everything, a fault-free,
context-check-passing call returns immediately: the environment is unchanged
apart from one tick of the fault clock, and nothing is logged or returned. -/
theorem register_labels_early (e : Env) (a : Args) (hf : e.failAt = none)
    (hc : check_if_registry_needs_organism a.field.model a.organism = .ok ())
    (he : (inspect e.localVals a.values).non_validated = []) :
    register_labels e a = (.ok { ret := none, logged := none }, e.step) := by
  simp only [register_labels, register_labels_try, hc]
  rw [if_neg (by simp [fails_eq_false _
    (show ({ e with verbosity := "error" } : Env).failAt = none from hf)])]
  rw [if_pos (by simp [List.length_eq_zero, he])]
  simp [Env.step]

/-! ## Accessors for the stages of the normal form

Derived handles on the intermediate quantities of `runSpec` (the local
non-validated set, the three buckets, the intermediate environments), plus
the equation tying `runSpec` to them. -/

/-- The locally non-validated subset of the distinct input values. -/
def nvOf (e : Env) (a : Args) : List Value := (inspect e.localVals a.values).non_validated

/-- The values the cross-instance stage registers (the `from <using>` bucket). -/
def fromUsingOf (e : Env) (a : Args) : List Value :=
  (usingResult e.step (nvOf e a) a.usingName).1.1

/-- The remainder the cross-instance stage leaves unresolved. -/
def remOf (e : Env) (a : Args) : List Value :=
  (usingResult e.step (nvOf e a) a.usingName).1.2

/-- The environment after the cross-instance stage. -/
def envUOf (e : Env) (a : Args) : Env := (usingResult e.step (nvOf e a) a.usingName).2

/-- The values the public-reference stage constructs (the `from public` bucket). -/
def pubsOf (e : Env) (a : Args) : List Value :=
  (public_reference_stage (envUOf e a).step a.field.model (remOf e a)).1

/-- The environment after the public-reference stage. -/
def envPOf (e : Env) (a : Args) : Env :=
  (public_reference_stage (envUOf e a).step a.field.model (remOf e a)).2

/-- The `without reference` bucket as first computed (before any
dataframe-derived recomputation). -/
def wrOf (e : Env) (a : Args) : List Value :=
  (remOf e a).filter (fun i => decide (i ∉ pubsOf e a))

/-- The bucket map after the public-reference stage. -/
def d3Of (e : Env) (a : Args) : LabelsDict :=
  dictSet
    (dictSet
      (dictSet [("from public", []), ("without reference", [])]
        (usingKey a.usingName) (fromUsingOf e a))
      "from public" (pubsOf e a))
    "without reference" (wrOf e a)

/-- Bucket map and environment after the placeholder stage. -/
def psOf (e : Env) (a : Args) : LabelsDict × Env :=
  placeholder_stage (envPOf e a).step a.field.model
    (a.field.model.hasPublic && a.validated_only) a.df (d3Of e a) (usingKey a.usingName)

/-- The final environment of the normal form (verbosity still `"error"`). -/
def finalEnvOf (e : Env) (a : Args) : Env :=
  hierarchySpec (psOf e a).2 a.field.model a.values a.field a.feature_name

theorem runSpec_eq (e : Env) (a : Args) :
    runSpec e a = ((psOf e a).1, finalEnvOf e a) := by
  unfold runSpec finalEnvOf psOf d3Of wrOf envPOf pubsOf envUOf remOf fromUsingOf nvOf
  simp only [step_localVals, dictGet_dictSet_same]

/-! ## Membership characterizations of the stage quantities -/

theorem mem_nvOf (e : Env) (a : Args) (v : Value) :
    v ∈ nvOf e a ↔ v ∈ a.values ∧ v ∉ e.localVals := by
  simp [nvOf, inspect, List.mem_filter]

theorem nvOf_nodup (e : Env) (a : Args) : (nvOf e a).Nodup :=
  (List.nodup_dedup a.values).filter _

theorem usingResult_none (e : Env) (values : List Value) :
    usingResult e values none = (([], values), e) := rfl

theorem usingResult_default (e : Env) (values : List Value) :
    usingResult e values (some "default") = (([], values), e) := by
  simp [usingResult]

theorem usingResult_some (e : Env) (values : List Value) (u : String)
    (h : u ≠ "default") :
    usingResult e values (some u) =
      ((values.dedup.filter (fun v => decide (v ∈ e.usingVals u)),
        values.dedup.filter (fun v => decide (v ∉ e.usingVals u))),
       saveRecords e.step (values.dedup.filter (fun v => decide (v ∈ e.usingVals u)))) := by
  simp [usingResult, h, inspect]

theorem fromUsingOf_subset (e : Env) (a : Args) (v : Value)
    (h : v ∈ fromUsingOf e a) : v ∈ nvOf e a := by
  unfold fromUsingOf at h
  cases ho : a.usingName with
  | none => rw [ho, usingResult_none] at h; simp at h
  | some u =>
    by_cases hd : u = "default"
    · rw [ho, hd, usingResult_default] at h; simp at h
    · rw [ho, usingResult_some _ _ _ hd] at h
      simp only [List.mem_filter, List.mem_dedup] at h
      exact h.1

theorem remOf_subset (e : Env) (a : Args) (v : Value)
    (h : v ∈ remOf e a) : v ∈ nvOf e a := by
  unfold remOf at h
  cases ho : a.usingName with
  | none => rw [ho, usingResult_none] at h; exact h
  | some u =>
    by_cases hd : u = "default"
    · rw [ho, hd, usingResult_default] at h; exact h
    · rw [ho, usingResult_some _ _ _ hd] at h
      simp only [List.mem_filter, List.mem_dedup] at h
      exact h.1

theorem nvOf_partition (e : Env) (a : Args) (v : Value) :
    v ∈ nvOf e a ↔ v ∈ fromUsingOf e a ∨ v ∈ remOf e a := by
  unfold fromUsingOf remOf
  cases ho : a.usingName with
  | none => rw [usingResult_none]; simp
  | some u =>
    by_cases hd : u = "default"
    · rw [hd, usingResult_default]; simp
    · rw [usingResult_some _ _ _ hd]
      simp only [List.mem_filter, List.mem_dedup, decide_eq_true_eq]
      by_cases hm : v ∈ e.usingVals u <;> simp [hm]

theorem fromUsing_rem_disjoint (e : Env) (a : Args) (v : Value) :
    ¬(v ∈ fromUsingOf e a ∧ v ∈ remOf e a) := by
  rintro ⟨h1, h2⟩
  unfold fromUsingOf at h1
  unfold remOf at h2
  cases ho : a.usingName with
  | none => rw [ho, usingResult_none] at h1; simp at h1
  | some u =>
    by_cases hd : u = "default"
    · rw [ho, hd, usingResult_default] at h1; simp at h1
    · rw [ho, usingResult_some _ _ _ hd] at h1 h2
      simp only [List.mem_filter, decide_eq_true_eq] at h1 h2
      exact h2.2 h1.2

theorem mem_fromUsingOf_some (e : Env) (a : Args) (u : String) (v : Value)
    (ho : a.usingName = some u) (hd : u ≠ "default") :
    v ∈ fromUsingOf e a ↔ v ∈ nvOf e a ∧ v ∈ e.usingVals u := by
  unfold fromUsingOf
  rw [ho, usingResult_some _ _ _ hd]
  simp [List.mem_filter]

theorem mem_remOf_some (e : Env) (a : Args) (u : String) (v : Value)
    (ho : a.usingName = some u) (hd : u ≠ "default") :
    v ∈ remOf e a ↔ v ∈ nvOf e a ∧ v ∉ e.usingVals u := by
  unfold remOf
  rw [ho, usingResult_some _ _ _ hd]
  simp [List.mem_filter]

theorem envUOf_localVals_mem (e : Env) (a : Args) (v : Value) :
    v ∈ (envUOf e a).localVals ↔ v ∈ fromUsingOf e a ∨ v ∈ e.localVals := by
  unfold envUOf fromUsingOf
  cases ho : a.usingName with
  | none => rw [usingResult_none]; simp
  | some u =>
    by_cases hd : u = "default"
    · rw [hd, usingResult_default]; simp
    · rw [usingResult_some _ _ _ hd]
      simp [saveRecords_localVals_mem]

theorem pubsOf_subset (e : Env) (a : Args) (v : Value)
    (h : v ∈ pubsOf e a) : v ∈ remOf e a := by
  unfold pubsOf public_reference_stage at h
  split at h
  · unfold from_values at h
    split at h <;> simp only [List.mem_filter, List.mem_dedup] at h <;> exact h.1
  · simp at h

theorem envPOf_localVals_mem (e : Env) (a : Args) (v : Value) :
    v ∈ (envPOf e a).localVals ↔ v ∈ pubsOf e a ∨ v ∈ (envUOf e a).localVals := by
  unfold envPOf pubsOf public_reference_stage
  split
  · simp [saveRecords_localVals_mem]
  · simp

theorem mem_wrOf (e : Env) (a : Args) (v : Value) :
    v ∈ wrOf e a ↔ v ∈ remOf e a ∧ v ∉ pubsOf e a := by
  simp [wrOf, List.mem_filter]

theorem d3Of_get_withoutReference (e : Env) (a : Args) :
    dictGet (d3Of e a) "without reference" = wrOf e a := by
  unfold d3Of
  rw [dictGet_dictSet_same]

theorem d3Of_get_fromPublic (e : Env) (a : Args) :
    dictGet (d3Of e a) "from public" = pubsOf e a := by
  unfold d3Of
  rw [dictGet_dictSet_ne _ _ _ _ (by decide), dictGet_dictSet_same]

theorem d3Of_get_usingKey (e : Env) (a : Args)
    (h : usingKey a.usingName ≠ "from public") :
    dictGet (d3Of e a) (usingKey a.usingName) = fromUsingOf e a := by
  unfold d3Of
  rw [dictGet_dictSet_ne _ _ _ _ (fun hx => usingKey_ne_withoutReference a.usingName hx.symm),
    dictGet_dictSet_ne _ _ _ _ (fun hx => h hx.symm), dictGet_dictSet_same]

/-! ## Stage-effect lemmas -/

theorem usingResult_createdPlaceholders (e : Env) (values : List Value) (o : Option String) :
    (usingResult e values o).2.createdPlaceholders = e.createdPlaceholders := by
  unfold usingResult
  cases o with
  | none => rfl
  | some u => by_cases h : u = "default" <;> simp [h]

theorem public_reference_stage_createdPlaceholders (e : Env) (r : RegistryKind)
    (vs : List Value) :
    (public_reference_stage e r vs).2.createdPlaceholders = e.createdPlaceholders := by
  unfold public_reference_stage
  split <;> simp

theorem envPOf_createdPlaceholders (e : Env) (a : Args) :
    (envPOf e a).createdPlaceholders = e.createdPlaceholders := by
  unfold envPOf envUOf
  rw [public_reference_stage_createdPlaceholders]
  simp [usingResult_createdPlaceholders]

theorem psOf_validatedOnly (e : Env) (a : Args)
    (hvo : (a.field.model.hasPublic && a.validated_only) = true) :
    psOf e a = (d3Of e a, (envPOf e a).step) := by
  unfold psOf placeholder_stage
  rw [if_pos hvo]

theorem psOf_generic (e : Env) (a : Args)
    (hvo : (a.field.model.hasPublic && a.validated_only) = false)
    (hdf : a.df = none ∨ a.field.model.isFeature = false) :
    psOf e a =
      (d3Of e a,
       { saveRecords (envPOf e a).step (wrOf e a) with
         createdPlaceholders := (envPOf e a).createdPlaceholders ++ wrOf e a }) := by
  unfold psOf placeholder_stage
  rw [if_neg (by simp [hvo]), d3Of_get_withoutReference]
  rcases hdf with h | h
  · rw [h]
    simp
  · cases hd : a.df with
    | none => simp
    | some d => rw [h]; simp

theorem psOf_df (e : Env) (a : Args) (d : DataFrame)
    (hvo : (a.field.model.hasPublic && a.validated_only) = false)
    (hdf : a.df = some d) (hfe : a.field.model.isFeature = true) :
    psOf e a =
      (dictSet (d3Of e a) "without reference"
        (d.columns.filter (fun col =>
          decide (col ∉ dictGet (d3Of e a) "from public") &&
          decide (col ∉ dictGet (d3Of e a) (usingKey a.usingName)))),
       { saveRecords (envPOf e a).step (from_df d) with
         createdPlaceholders := (envPOf e a).createdPlaceholders ++ from_df d }) := by
  unfold psOf placeholder_stage
  rw [if_neg (by simp [hvo]), hdf, hfe]
  simp

theorem hierarchySpec_createdPlaceholders (e : Env) (r : RegistryKind)
    (vs : List Value) (f : FieldAttr) (fn : String) :
    (hierarchySpec e r vs f fn).createdPlaceholders = e.createdPlaceholders := by
  unfold hierarchySpec
  split
  · by_cases hp : ("is_" ++ fn) ∈ e.localVals <;> simp [hp]
  · rfl

theorem hierarchySpec_localVals_mono (e : Env) (r : RegistryKind)
    (vs : List Value) (f : FieldAttr) (fn : String) (v : Value)
    (h : v ∈ e.localVals) : v ∈ (hierarchySpec e r vs f fn).localVals := by
  unfold hierarchySpec
  split
  · by_cases hp : ("is_" ++ fn) ∈ e.localVals
    · simpa [hp] using h
    · simp [hp, saveRecord_localVals_mem]
      right
      exact h
  · exact h

theorem hierarchySpec_not_ulabel (e : Env) (r : RegistryKind)
    (vs : List Value) (f : FieldAttr) (fn : String)
    (h : r.isULabel = false) : hierarchySpec e r vs f fn = e := by
  unfold hierarchySpec
  rw [if_neg (by simp [h])]

theorem finalEnvOf_createdPlaceholders (e : Env) (a : Args) :
    (finalEnvOf e a).createdPlaceholders = (psOf e a).2.createdPlaceholders := by
  unfold finalEnvOf
  rw [hierarchySpec_createdPlaceholders]

/-! ## Concrete instances used by witnesses and counterexamples -/

/-- A fresh world: empty local registry, no secondary instances, an empty
public reference, nothing created yet, no fault scheduled. -/
def baseEnv : Env :=
  { localVals := [], usingVals := fun _ => [], pub := fun _ => false,
    verbosity := "info", saves := 0, fromValuesCalls := 0,
    createdPlaceholders := [], parentLinks := [], clock := 0, failAt := none }

/-- The example scenario of spec §8: local registry has `liver` validated, the
secondary instance has `heart`, the public reference can construct nothing. -/
def scenarioEnv : Env :=
  { baseEnv with
    localVals := ["liver"],
    usingVals := fun i => if i = "secondary" then ["heart"] else [] }

/-- The example scenario of spec §8: reconcile
`{"liver", "heart", "unknowntissue"}` against a public-reference-backed
(tissue-like) registry with `validated_only=True`. -/
def scenarioArgs : Args :=
  { values := ["liver", "heart", "unknowntissue"],
    field := { model := .bionty false, name := "name" },
    feature_name := "tissue", usingName := some "secondary",
    validated_only := true, organism := none, df := none }

/-! ## Claim theorems -/

/-- C5: for every starting verbosity level and every call to
`register_labels`, whether the call completes normally or raises at any stage
(the missing-context check before the guard, or any external round trip
inside it), the process-wide verbosity setting after the call equals exactly
its value before the call. -/
theorem verbosity_restored (e : Env) (a : Args) :
    ((register_labels e a).2).verbosity = e.verbosity := by
  simp only [register_labels]
  cases hc : check_if_registry_needs_organism a.field.model a.organism with
  | error err => simp [hc]
  | ok u =>
    simp only [hc]
    rcases ht : register_labels_try { e with verbosity := "error" } e.verbosity
        (a.field.model.hasPublic && a.validated_only) a with ⟨r, e2⟩
    cases r <;> simp [ht]

/-- C6: for every value list and field, if the using-instance argument is
`None` or the local sentinel `"default"`, `register_labels_from_using_instance`
is a no-op returning `([], values)` with the world untouched (no registry
instance is accessed: not even the fault clock advances). -/
theorem using_absent_noop (e : Env) (values : List Value) (field : FieldAttr) :
    register_labels_from_using_instance e values field none = (.ok ([], values), e) ∧
    register_labels_from_using_instance e values field (some "default") =
      (.ok ([], values), e) :=
  ⟨rfl, by simp [register_labels_from_using_instance]⟩

/-- C2, amended: the single entry point `register_labels` computes the bucket
map and hands it to the logger, but its Python return value is `None` on
every completing path — neither the structured partition nor the identity of
a created parent label is returned to the caller. -/
theorem entry_point_returns_none (e : Env) (a : Args) (hf : e.failAt = none)
    (hc : check_if_registry_needs_organism a.field.model a.organism = .ok ()) :
    retOf (register_labels e a) = none := by
  by_cases h : (inspect e.localVals a.values).non_validated = []
  · rw [register_labels_early e a hf hc h]; rfl
  · rw [register_labels_ok e a hf hc h]; rfl

/-- C2, counterexample: on the §8 scenario the call produces a non-trivial
bucket map (and hands it to the logger), yet returns `None` rather than the
structured partition report the claim promises. -/
theorem entry_point_return_counterexample :
    retOf (register_labels scenarioEnv scenarioArgs) = none ∧
    loggedOf (register_labels scenarioEnv scenarioArgs) =
      some [("from public", []), ("without reference", ["unknowntissue"]),
            ("from secondary", ["heart"])] :=
  ⟨by decide, by decide⟩

/-- C2, witness for the amended claim at the §8 scenario. -/
theorem entry_point_returns_none_witness :
    scenarioEnv.failAt = none ∧ retOf (register_labels scenarioEnv scenarioArgs) = none :=
  ⟨rfl, entry_point_returns_none scenarioEnv scenarioArgs rfl rfl⟩

/-- C4: whenever the local inspection reports an empty `non_validated` set, a
(fault-free, context-check-passing) call returns immediately: no
cross-instance, public-reference, placeholder or hierarchy stage executes —
the world is unchanged except for the single inspection round trip on the
fault clock — and nothing is registered, logged, or returned. -/
theorem noop_on_full_validation (e : Env) (a : Args) (hf : e.failAt = none)
    (hc : check_if_registry_needs_organism a.field.model a.organism = .ok ())
    (he : (inspect e.localVals a.values).non_validated = []) :
    register_labels e a = (.ok { ret := none, logged := none }, e.step) ∧
    ((register_labels e a).2).localVals = e.localVals ∧
    ((register_labels e a).2).saves = e.saves ∧
    ((register_labels e a).2).fromValuesCalls = e.fromValuesCalls ∧
    ((register_labels e a).2).createdPlaceholders = e.createdPlaceholders ∧
    ((register_labels e a).2).parentLinks = e.parentLinks := by
  have h := register_labels_early e a hf hc he
  refine ⟨h, ?_, ?_, ?_, ?_, ?_⟩ <;> simp [h, Env.step]

/-- Fully validated input for the C4 witness. -/
def eC4 : Env := { baseEnv with localVals := ["a"] }

/-- Arguments whose values are all validated locally. -/
def aC4 : Args :=
  { values := ["a"], field := { model := .bionty false, name := "name" },
    feature_name := "f", usingName := none, validated_only := true,
    organism := none, df := none }

/-- C4, witness: a concrete fully-validated call returns immediately. -/
theorem noop_on_full_validation_witness :
    (inspect eC4.localVals aC4.values).non_validated = [] ∧
    register_labels eC4 aC4 = (.ok { ret := none, logged := none }, eC4.step) :=
  ⟨by decide, (noop_on_full_validation eC4 aC4 rfl rfl (by decide)).1⟩

/-- Once the parent label exists, a hierarchy-linking call never touches the
record set again (it only adds adjacency links) — on any fault schedule. -/
theorem register_ulabels_with_parent_localVals (e : Env) (values : List Value)
    (field : FieldAttr) (feature_name : String)
    (hp : ("is_" ++ feature_name) ∈ e.localVals) :
    ((register_ulabels_with_parent e values field feature_name).2).localVals =
      e.localVals := by
  unfold register_ulabels_with_parent
  split
  · split
    · rfl
    · simp [hp]
  · rfl

/-- C7: for every feature name, across any number of hierarchy-linking calls
with no intervening state change, at most one parent label named
`is_<feature_name>` ever exists: the first (fault-free) call makes the parent
present while keeping at most one copy of it, and any further sequence of
calls (whatever their values or fault schedules) leaves the record set of the
registry exactly unchanged — each subsequent call finds and reuses the first
call's parent. -/
theorem at_most_one_parent (e : Env) (values : List Value) (field : FieldAttr)
    (feature_name : String) (hf : e.failAt = none)
    (hu : field.model.isULabel = true)
    (hcount : e.localVals.count ("is_" ++ feature_name) ≤ 1) :
    ("is_" ++ feature_name) ∈
      ((register_ulabels_with_parent e values field feature_name).2).localVals ∧
    ((register_ulabels_with_parent e values field feature_name).2).localVals.count
      ("is_" ++ feature_name) ≤ 1 ∧
    ∀ vss : List (List Value),
      (vss.foldl (fun acc vs => (register_ulabels_with_parent acc vs field feature_name).2)
        ((register_ulabels_with_parent e values field feature_name).2)).localVals =
      ((register_ulabels_with_parent e values field feature_name).2).localVals := by
  have key : ∀ (vss : List (List Value)) (x : Env), ("is_" ++ feature_name) ∈ x.localVals →
      (vss.foldl (fun acc vs => (register_ulabels_with_parent acc vs field feature_name).2)
        x).localVals = x.localVals := by
    intro vss
    induction vss with
    | nil => intro x _; rfl
    | cons vs vss ih =>
      intro x hx
      simp only [List.foldl_cons]
      rw [ih _ (by rw [register_ulabels_with_parent_localVals _ _ _ _ hx]; exact hx),
        register_ulabels_with_parent_localVals _ _ _ _ hx]
  have hmain : ("is_" ++ feature_name) ∈
        ((register_ulabels_with_parent e values field feature_name).2).localVals ∧
      ((register_ulabels_with_parent e values field feature_name).2).localVals.count
        ("is_" ++ feature_name) ≤ 1 := by
    unfold register_ulabels_with_parent
    rw [if_pos hu, if_neg (by simp [fails_eq_false e hf])]
    by_cases hp : ("is_" ++ feature_name) ∈ e.localVals
    · constructor
      · simp [hp]
      · simpa [hp] using hcount
    · have hzero : e.localVals.count ("is_" ++ feature_name) = 0 :=
        List.count_eq_zero.mpr hp
      constructor
      · simp [hp, saveRecord, List.mem_cons]
      · simp [hp, saveRecord, List.count_cons, hzero]
  exact ⟨hmain.1, hmain.2, fun vss => key vss _ hmain.1⟩

/-- The free-form-label field for the C7 witness. -/
def ulabelNameField : FieldAttr := { model := .ulabel, name := "name" }

/-- C7, witness: creating the parent once from a fresh world, then two more
calls with different value lists, leaves the registry record set unchanged. -/
theorem at_most_one_parent_witness :
    baseEnv.localVals.count ("is_" ++ "tissue") ≤ 1 ∧
    ("is_" ++ "tissue") ∈
      ((register_ulabels_with_parent baseEnv ["a"] ulabelNameField "tissue").2).localVals ∧
    (([["b"], ["a", "c"]].foldl
        (fun acc vs => (register_ulabels_with_parent acc vs ulabelNameField "tissue").2)
        ((register_ulabels_with_parent baseEnv ["a"] ulabelNameField "tissue").2)).localVals =
      ((register_ulabels_with_parent baseEnv ["a"] ulabelNameField "tissue").2).localVals) := by
  refine ⟨by decide, ?_, ?_⟩
  · exact (at_most_one_parent baseEnv ["a"] ulabelNameField "tissue" rfl rfl (by decide)).1
  · exact (at_most_one_parent baseEnv ["a"] ulabelNameField "tissue" rfl rfl
      (by decide)).2.2 [["b"], ["a", "c"]]

/-- The `"without reference"` bucket a call reports (empty when the call did
not reach the logger). -/
def withoutRefBucket (r : Except Err RegOut × Env) : List Value :=
  match loggedOf r with
  | some d => dictGet d "without reference"
  | none => []

/-- C10: when the field's registry model has no `public` attribute, the
engine forces `validated_only = False` even though the caller passed `True`:
every value reported in the `"without reference"` bucket has been materialized
as a placeholder record (it is among the records the placeholder stage
created, and it is present in the local registry afterwards). -/
theorem no_public_forces_registration (e : Env) (a : Args) (hf : e.failAt = none)
    (hnp : a.field.model.hasPublic = false) (hvo : a.validated_only = true) :
    ∀ v ∈ withoutRefBucket (register_labels e a),
      v ∈ ((register_labels e a).2).localVals ∧
      v ∈ ((register_labels e a).2).createdPlaceholders := by
  have hc : check_if_registry_needs_organism a.field.model a.organism = .ok () := by
    cases hk : a.field.model <;>
      simp_all [check_if_registry_needs_organism, RegistryKind.needsOrganism,
        RegistryKind.hasPublic]
  have hvo' : (a.field.model.hasPublic && a.validated_only) = false := by
    rw [hnp]; rfl
  intro v hv
  by_cases h : (inspect e.localVals a.values).non_validated = []
  · rw [register_labels_early e a hf hc h] at hv
    simp [withoutRefBucket, loggedOf] at hv
  · rw [register_labels_ok e a hf hc h] at hv ⊢
    simp only [withoutRefBucket, loggedOf, runSpec_eq] at hv ⊢
    rcases hd : a.df with _ | d
    · have hps := psOf_generic { e with verbosity := "error" } a hvo' (Or.inl hd)
      rw [hps, d3Of_get_withoutReference] at hv
      constructor
      · unfold finalEnvOf
        rw [hps]
        exact hierarchySpec_localVals_mono _ _ _ _ _ _
          (by simp [saveRecords_localVals_mem, hv])
      · rw [finalEnvOf_createdPlaceholders, hps]
        simp [hv]
    · by_cases hfe : a.field.model.isFeature = true
      · have hps := psOf_df { e with verbosity := "error" } a d hvo' hd hfe
        rw [hps, dictGet_dictSet_same] at hv
        have hcol : v ∈ from_df d := by
          rw [from_df, List.mem_dedup]
          exact (List.mem_filter.mp hv).1
        constructor
        · unfold finalEnvOf
          rw [hps]
          exact hierarchySpec_localVals_mono _ _ _ _ _ _
            (by simp [saveRecords_localVals_mem, hcol])
        · rw [finalEnvOf_createdPlaceholders, hps]
          simp [hcol]
      · have hps := psOf_generic { e with verbosity := "error" } a hvo'
          (Or.inr (by simpa using hfe))
        rw [hps, d3Of_get_withoutReference] at hv
        constructor
        · unfold finalEnvOf
          rw [hps]
          exact hierarchySpec_localVals_mono _ _ _ _ _ _
            (by simp [saveRecords_localVals_mem, hv])
        · rw [finalEnvOf_createdPlaceholders, hps]
          simp [hv]

/-- Arguments for the C10 witness: a feature-registry call (no `public`
attribute) with `validated_only=True` and one unresolvable value. -/
def aC10 : Args :=
  { values := ["x"], field := { model := .feature, name := "name" },
    feature_name := "f", usingName := none, validated_only := true,
    organism := none, df := none }

/-- C10, witness: the unresolvable value `x` ends up as a created, persisted
placeholder record even though the caller passed `validated_only=True`. -/
theorem no_public_forces_registration_witness :
    "x" ∈ withoutRefBucket (register_labels baseEnv aC10) ∧
    "x" ∈ ((register_labels baseEnv aC10).2).localVals ∧
    "x" ∈ ((register_labels baseEnv aC10).2).createdPlaceholders :=
  ⟨by decide, no_public_forces_registration baseEnv aC10 rfl rfl rfl "x" (by decide)⟩

/-- C3, amended: for every call where the caller passes `validated_only=True`
and the field's registry model has a `public` attribute (so the flag is not
forced off), no placeholder records are created for values in the
`"without reference"` bucket — the placeholder stage constructs nothing. -/
theorem validated_only_no_placeholders (e : Env) (a : Args) (hf : e.failAt = none)
    (hc : check_if_registry_needs_organism a.field.model a.organism = .ok ())
    (hp : a.field.model.hasPublic = true) (hvo : a.validated_only = true) :
    ((register_labels e a).2).createdPlaceholders = e.createdPlaceholders := by
  by_cases h : (inspect e.localVals a.values).non_validated = []
  · rw [register_labels_early e a hf hc h]
    rfl
  · rw [register_labels_ok e a hf hc h]
    simp only [runSpec_eq]
    rw [finalEnvOf_createdPlaceholders,
      psOf_validatedOnly { e with verbosity := "error" } a (by simp [hp, hvo])]
    simp [envPOf_createdPlaceholders]

/-- C3, counterexample: a `register_labels` call on the feature registry (no
`public` attribute) with `validated_only=True` passed by the caller still
creates a placeholder record for the `"without reference"` value `x`. -/
theorem validated_only_no_placeholders_counterexample :
    aC10.validated_only = true ∧
    baseEnv.createdPlaceholders = [] ∧
    ((register_labels baseEnv aC10).2).createdPlaceholders = ["x"] :=
  ⟨rfl, rfl, by decide⟩

/-- C3, witness for the amended claim: the §8 scenario — `liver` validated
locally, `heart` via the secondary instance, `unknowntissue` resolvable
nowhere, `validated_only=True` on a public-backed registry — reports the
expected partition, creates zero placeholder records, and does not persist
the unresolved value. -/
theorem validated_only_no_placeholders_witness :
    loggedOf (register_labels scenarioEnv scenarioArgs) =
      some [("from public", []), ("without reference", ["unknowntissue"]),
            ("from secondary", ["heart"])] ∧
    "unknowntissue" ∉ ((register_labels scenarioEnv scenarioArgs).2).localVals ∧
    ((register_labels scenarioEnv scenarioArgs).2).createdPlaceholders =
      scenarioEnv.createdPlaceholders :=
  ⟨by decide, by decide,
   validated_only_no_placeholders scenarioEnv scenarioArgs rfl rfl rfl rfl⟩

/-- The remainder the cross-instance stage leaves splits exactly into the
publicly constructed values and the `"without reference"` values. -/
theorem rem_partition (e : Env) (a : Args) (v : Value) :
    v ∈ remOf e a ↔ v ∈ pubsOf e a ∨ v ∈ wrOf e a := by
  rw [mem_wrOf]
  by_cases hp : v ∈ pubsOf e a
  · simp [hp, pubsOf_subset e a v hp]
  · simp [hp]

/-- The reported bucket for a key (empty when the call did not log). -/
def bucketOf (r : Except Err RegOut × Env) (k : String) : List Value :=
  match loggedOf r with
  | some d => dictGet d k
  | none => []

/-- C1, amended: for every fault-free, context-check-passing reconciliation
call with a non-empty local non-validated remainder, provided (i) the
using-instance bucket key `from <using>` is not the literal `"from public"`
(the key the public bucket would overwrite) and (ii) the call is not a
dataframe-plus-feature-registry call (which recomputes `"without reference"`
from the dataframe's columns), the buckets `from <using>`, `from public` and
`without reference` of the reported partition are pairwise disjoint subsets of
the local non-validated set whose union is exactly that set. -/
theorem partition_completeness (e : Env) (a : Args) (hf : e.failAt = none)
    (hc : check_if_registry_needs_organism a.field.model a.organism = .ok ())
    (hne : (inspect e.localVals a.values).non_validated ≠ [])
    (hkey : usingKey a.usingName ≠ "from public")
    (hdf : a.df = none ∨ a.field.model.isFeature = false) :
    (∀ v, v ∈ nvOf e a ↔
       (v ∈ bucketOf (register_labels e a) (usingKey a.usingName) ∨
        v ∈ bucketOf (register_labels e a) "from public" ∨
        v ∈ bucketOf (register_labels e a) "without reference")) ∧
    (∀ v, ¬(v ∈ bucketOf (register_labels e a) (usingKey a.usingName) ∧
            v ∈ bucketOf (register_labels e a) "from public")) ∧
    (∀ v, ¬(v ∈ bucketOf (register_labels e a) (usingKey a.usingName) ∧
            v ∈ bucketOf (register_labels e a) "without reference")) ∧
    (∀ v, ¬(v ∈ bucketOf (register_labels e a) "from public" ∧
            v ∈ bucketOf (register_labels e a) "without reference")) := by
  rw [register_labels_ok e a hf hc hne]
  have hdict : ∀ k, bucketOf
      (.ok { ret := none,
             logged := some (runSpec { e with verbosity := "error" } a).1 },
       { (runSpec { e with verbosity := "error" } a).2 with verbosity := e.verbosity }) k =
      dictGet (d3Of { e with verbosity := "error" } a) k := by
    intro k
    show dictGet (runSpec { e with verbosity := "error" } a).1 k = _
    rw [runSpec_eq]
    show dictGet (psOf { e with verbosity := "error" } a).1 k = _
    cases hvo : (a.field.model.hasPublic && a.validated_only) with
    | true => rw [psOf_validatedOnly _ _ hvo]
    | false => rw [psOf_generic _ _ hvo hdf]
  simp only [hdict, d3Of_get_usingKey _ _ hkey, d3Of_get_fromPublic,
    d3Of_get_withoutReference]
  have hnv : nvOf e a = nvOf { e with verbosity := "error" } a := rfl
  refine ⟨?_, ?_, ?_, ?_⟩
  · intro v
    rw [hnv, nvOf_partition, rem_partition { e with verbosity := "error" } a v]
  · rintro v ⟨h1, h2⟩
    exact fromUsing_rem_disjoint _ a v ⟨h1, pubsOf_subset _ a v h2⟩
  · rintro v ⟨h1, h2⟩
    exact fromUsing_rem_disjoint _ a v ⟨h1, (mem_wrOf _ a v |>.mp h2).1⟩
  · rintro v ⟨h1, h2⟩
    exact (mem_wrOf _ a v |>.mp h2).2 h1

/-- Environment for the C1 counterexample: `a` already validated locally. -/
def eC1df : Env := { baseEnv with localVals := ["a"] }

/-- Arguments for the C1 counterexample: a feature-registry call with a
dataframe whose columns include the already-validated `a`. -/
def aC1df : Args :=
  { values := ["a", "b"], field := { model := .feature, name := "name" },
    feature_name := "feature", usingName := none, validated_only := true,
    organism := none, df := some { columns := ["a", "b"] } }

/-- C1, counterexample: on a dataframe-plus-feature-registry call the
`"without reference"` bucket is recomputed from the dataframe's columns and
contains the locally validated value `a`, so it is not a subset of the local
non-validated set (and the union of the buckets is not that set). -/
theorem partition_completeness_counterexample :
    "a" ∈ bucketOf (register_labels eC1df aC1df) "without reference" ∧
    "a" ∉ (inspect eC1df.localVals aC1df.values).non_validated :=
  ⟨by decide, by decide⟩

/-- C1, witness for the amended claim at the §8 scenario. -/
theorem partition_completeness_witness :
    ((inspect scenarioEnv.localVals scenarioArgs.values).non_validated ≠ []) ∧
    ("heart" ∈ nvOf scenarioEnv scenarioArgs ↔
      ("heart" ∈ bucketOf (register_labels scenarioEnv scenarioArgs)
          (usingKey scenarioArgs.usingName) ∨
       "heart" ∈ bucketOf (register_labels scenarioEnv scenarioArgs) "from public" ∨
       "heart" ∈ bucketOf (register_labels scenarioEnv scenarioArgs)
          "without reference")) :=
  ⟨by decide,
   (partition_completeness scenarioEnv scenarioArgs rfl rfl (by decide) (by decide)
     (Or.inl rfl)).1 "heart"⟩

theorem psOf_get_usingKey (e : Env) (a : Args)
    (hkey : usingKey a.usingName ≠ "from public") :
    dictGet (psOf e a).1 (usingKey a.usingName) = fromUsingOf e a := by
  unfold psOf placeholder_stage
  split
  · exact d3Of_get_usingKey e a hkey
  · split
    · rw [dictGet_dictSet_ne _ _ _ _
        (fun hx => usingKey_ne_withoutReference a.usingName hx.symm)]
      exact d3Of_get_usingKey e a hkey
    · exact d3Of_get_usingKey e a hkey

theorem psOf_get_fromPublic (e : Env) (a : Args) :
    dictGet (psOf e a).1 "from public" = pubsOf e a := by
  unfold psOf placeholder_stage
  split
  · exact d3Of_get_fromPublic e a
  · split
    · rw [dictGet_dictSet_ne _ _ _ _ (by decide)]
      exact d3Of_get_fromPublic e a
    · exact d3Of_get_fromPublic e a

theorem psOf_get_withoutReference_not_mem (e : Env) (a : Args) (v : Value)
    (hkey : usingKey a.usingName ≠ "from public")
    (hfu : v ∈ fromUsingOf e a) :
    v ∉ dictGet (psOf e a).1 "without reference" := by
  have hrem : v ∉ remOf e a := fun hr => fromUsing_rem_disjoint e a v ⟨hfu, hr⟩
  unfold psOf placeholder_stage
  split
  · rw [d3Of_get_withoutReference]
    intro hw
    exact hrem ((mem_wrOf e a v).mp hw).1
  · split
    · rw [dictGet_dictSet_same]
      intro hw
      rcases List.mem_filter.mp hw with ⟨_, hcond⟩
      rcases Bool.and_eq_true_iff.mp hcond with ⟨_, h2⟩
      rw [d3Of_get_usingKey e a hkey] at h2
      exact (decide_eq_true_eq.mp h2) hfu
    · rw [d3Of_get_withoutReference]
      intro hw
      exact hrem ((mem_wrOf e a v).mp hw).1

/-- C8, amended: for every input value that the secondary (using) instance
validates and that reaches the cross-instance stage (it is locally
non-validated), provided the using-instance name is not the literal
`"public"` (whose dict key `from public` the public-reference bucket
overwrites), the value appears in the `from <using>` bucket of the reported
partition and in neither the `from public` nor the `without reference`
bucket — even if the public reference could also construct it. -/
theorem cross_instance_precedence (e : Env) (a : Args) (hf : e.failAt = none)
    (hc : check_if_registry_needs_organism a.field.model a.organism = .ok ())
    (u : String) (ho : a.usingName = some u) (hd : u ≠ "default")
    (hpub : u ≠ "public") (v : Value) (hvin : v ∈ a.values)
    (hnl : v ∉ e.localVals) (hval : v ∈ e.usingVals u) :
    v ∈ bucketOf (register_labels e a) (usingKey a.usingName) ∧
    v ∉ bucketOf (register_labels e a) "from public" ∧
    v ∉ bucketOf (register_labels e a) "without reference" := by
  have hkey : usingKey a.usingName ≠ "from public" := by
    rw [ho]
    intro hx
    exact hpub (Option.some_injective _ ((usingKey_eq_fromPublic_iff (some u)).mp hx))
  have hnv : v ∈ nvOf e a := (mem_nvOf e a v).mpr ⟨hvin, hnl⟩
  have hne : (inspect e.localVals a.values).non_validated ≠ [] := by
    intro hE
    rw [nvOf, hE] at hnv
    exact (List.not_mem_nil v) hnv
  have hfu : v ∈ fromUsingOf { e with verbosity := "error" } a :=
    (mem_fromUsingOf_some { e with verbosity := "error" } a u v ho hd).mpr ⟨hnv, hval⟩
  rw [register_labels_ok e a hf hc hne]
  have hbucket : ∀ k, bucketOf
      (.ok { ret := none,
             logged := some (runSpec { e with verbosity := "error" } a).1 },
       { (runSpec { e with verbosity := "error" } a).2 with verbosity := e.verbosity }) k =
      dictGet (psOf { e with verbosity := "error" } a).1 k := by
    intro k
    show dictGet (runSpec { e with verbosity := "error" } a).1 k = _
    rw [runSpec_eq]
  refine ⟨?_, ?_, ?_⟩
  · rw [hbucket, psOf_get_usingKey _ _ hkey]
    exact hfu
  · rw [hbucket, psOf_get_fromPublic]
    intro hp
    exact fromUsing_rem_disjoint { e with verbosity := "error" } a v
      ⟨hfu, pubsOf_subset _ a v hp⟩
  · rw [hbucket]
    exact psOf_get_withoutReference_not_mem _ a v hkey hfu

/-- Environment for the C8 counterexample: the secondary instance is
literally named `public` and validates `h`. -/
def eC8x : Env :=
  { baseEnv with usingVals := fun i => if i = "public" then ["h"] else [] }

/-- Arguments for the C8 counterexample: reconcile through the using instance
named `public`. -/
def aC8x : Args :=
  { values := ["h", "x"], field := { model := .bionty false, name := "name" },
    feature_name := "f", usingName := some "public", validated_only := true,
    organism := none, df := none }

/-- C8, counterexample: `h` is validated by the using instance named
`"public"` and is locally non-validated, yet the reported partition's
`from <using>` bucket (the dict key `"from public"`, overwritten by the
public-reference stage) does not contain it — it appears in no bucket at
all, although it was copied into the local registry. -/
theorem cross_instance_precedence_counterexample :
    "h" ∈ eC8x.usingVals "public" ∧
    "h" ∉ eC8x.localVals ∧
    "h" ∈ ((register_labels eC8x aC8x).2).localVals ∧
    "h" ∉ bucketOf (register_labels eC8x aC8x) (usingKey aC8x.usingName) :=
  ⟨by decide, by decide, by decide, by decide⟩

/-- C8, witness for the amended claim: in the §8 scenario, `heart` (validated
by the secondary instance) lands in the `from secondary` bucket and in
neither of the other two. -/
theorem cross_instance_precedence_witness :
    "heart" ∈ scenarioEnv.usingVals "secondary" ∧
    ("heart" ∈ bucketOf (register_labels scenarioEnv scenarioArgs)
        (usingKey scenarioArgs.usingName) ∧
     "heart" ∉ bucketOf (register_labels scenarioEnv scenarioArgs) "from public" ∧
     "heart" ∉ bucketOf (register_labels scenarioEnv scenarioArgs) "without reference") :=
  ⟨by decide,
   cross_instance_precedence scenarioEnv scenarioArgs rfl rfl "secondary" rfl
     (by decide) (by decide) "heart" (by decide) (by decide) (by decide)⟩

/-! ## Field-preservation and monotonicity lemmas for the idempotence proof -/

@[simp] theorem linkChildren_usingVals (e : Env) (p : Value) (cs : List Value) :
    (linkChildren e p cs).usingVals = e.usingVals := by
  induction cs generalizing e with
  | nil => rfl
  | cons c cs ih =>
    unfold linkChildren at ih ⊢
    simp only [List.foldl_cons]
    rw [ih]
    split <;> rfl

@[simp] theorem linkChildren_pub (e : Env) (p : Value) (cs : List Value) :
    (linkChildren e p cs).pub = e.pub := by
  induction cs generalizing e with
  | nil => rfl
  | cons c cs ih =>
    unfold linkChildren at ih ⊢
    simp only [List.foldl_cons]
    rw [ih]
    split <;> rfl

theorem hierarchySpec_usingVals (e : Env) (r : RegistryKind) (vs : List Value)
    (f : FieldAttr) (fn : String) :
    (hierarchySpec e r vs f fn).usingVals = e.usingVals := by
  unfold hierarchySpec
  split
  · by_cases hp : ("is_" ++ fn) ∈ e.localVals <;> simp [hp]
  · rfl

theorem hierarchySpec_pub (e : Env) (r : RegistryKind) (vs : List Value)
    (f : FieldAttr) (fn : String) :
    (hierarchySpec e r vs f fn).pub = e.pub := by
  unfold hierarchySpec
  split
  · by_cases hp : ("is_" ++ fn) ∈ e.localVals <;> simp [hp]
  · rfl

theorem hierarchySpec_failAt (e : Env) (r : RegistryKind) (vs : List Value)
    (f : FieldAttr) (fn : String) :
    (hierarchySpec e r vs f fn).failAt = e.failAt := by
  unfold hierarchySpec
  split
  · by_cases hp : ("is_" ++ fn) ∈ e.localVals <;> simp [hp]
  · rfl

theorem placeholder_stage_usingVals (e : Env) (r : RegistryKind) (vo : Bool)
    (df : Option DataFrame) (d : LabelsDict) (k : String) :
    (placeholder_stage e r vo df d k).2.usingVals = e.usingVals := by
  unfold placeholder_stage
  split
  · rfl
  · split <;> simp

theorem placeholder_stage_pub (e : Env) (r : RegistryKind) (vo : Bool)
    (df : Option DataFrame) (d : LabelsDict) (k : String) :
    (placeholder_stage e r vo df d k).2.pub = e.pub := by
  unfold placeholder_stage
  split
  · rfl
  · split <;> simp

theorem usingResult_usingVals (e : Env) (values : List Value) (o : Option String) :
    (usingResult e values o).2.usingVals = e.usingVals := by
  unfold usingResult
  cases o with
  | none => rfl
  | some u => by_cases h : u = "default" <;> simp [h]

theorem usingResult_pub (e : Env) (values : List Value) (o : Option String) :
    (usingResult e values o).2.pub = e.pub := by
  unfold usingResult
  cases o with
  | none => rfl
  | some u => by_cases h : u = "default" <;> simp [h]

theorem public_reference_stage_usingVals (e : Env) (r : RegistryKind) (vs : List Value) :
    (public_reference_stage e r vs).2.usingVals = e.usingVals := by
  unfold public_reference_stage
  split <;> simp

theorem public_reference_stage_pub (e : Env) (r : RegistryKind) (vs : List Value) :
    (public_reference_stage e r vs).2.pub = e.pub := by
  unfold public_reference_stage
  split <;> simp

theorem envUOf_usingVals (e : Env) (a : Args) :
    (envUOf e a).usingVals = e.usingVals := by
  unfold envUOf
  rw [usingResult_usingVals, step_usingVals]

theorem envUOf_pub (e : Env) (a : Args) : (envUOf e a).pub = e.pub := by
  unfold envUOf
  rw [usingResult_pub, step_pub]

theorem envUOf_failAt (e : Env) (a : Args) : (envUOf e a).failAt = e.failAt := by
  unfold envUOf
  rw [usingResult_failAt, step_failAt]

theorem envPOf_usingVals (e : Env) (a : Args) :
    (envPOf e a).usingVals = e.usingVals := by
  unfold envPOf
  rw [public_reference_stage_usingVals, step_usingVals, envUOf_usingVals]

theorem envPOf_pub (e : Env) (a : Args) : (envPOf e a).pub = e.pub := by
  unfold envPOf
  rw [public_reference_stage_pub, step_pub, envUOf_pub]

theorem envPOf_failAt (e : Env) (a : Args) : (envPOf e a).failAt = e.failAt := by
  unfold envPOf
  rw [public_reference_stage_failAt, step_failAt, envUOf_failAt]

theorem finalEnvOf_failAt (e : Env) (a : Args) :
    (finalEnvOf e a).failAt = e.failAt := by
  unfold finalEnvOf psOf
  rw [hierarchySpec_failAt, placeholder_stage_failAt, step_failAt, envPOf_failAt]

theorem finalEnvOf_usingVals (e : Env) (a : Args) :
    (finalEnvOf e a).usingVals = e.usingVals := by
  unfold finalEnvOf psOf
  rw [hierarchySpec_usingVals, placeholder_stage_usingVals, step_usingVals,
    envPOf_usingVals]

theorem finalEnvOf_pub (e : Env) (a : Args) :
    (finalEnvOf e a).pub = e.pub := by
  unfold finalEnvOf psOf
  rw [hierarchySpec_pub, placeholder_stage_pub, step_pub, envPOf_pub]

theorem psOf_localVals_mono (e : Env) (a : Args) (v : Value)
    (h : v ∈ (envPOf e a).localVals) : v ∈ (psOf e a).2.localVals := by
  unfold psOf placeholder_stage
  split
  · simpa using h
  · split <;> simp [saveRecords_localVals_mem] <;> right <;> simpa using h

theorem finalEnvOf_localVals_of_envP (e : Env) (a : Args) (v : Value)
    (h : v ∈ (envPOf e a).localVals) : v ∈ (finalEnvOf e a).localVals := by
  unfold finalEnvOf
  exact hierarchySpec_localVals_mono _ _ _ _ _ _ (psOf_localVals_mono e a v h)

theorem finalEnvOf_localVals_mono (e : Env) (a : Args) (v : Value)
    (h : v ∈ e.localVals) : v ∈ (finalEnvOf e a).localVals :=
  finalEnvOf_localVals_of_envP e a v
    ((envPOf_localVals_mem e a v).mpr (Or.inr ((envUOf_localVals_mem e a v).mpr (Or.inr h))))

theorem fromUsing_subset_finalEnv (e : Env) (a : Args) (v : Value)
    (h : v ∈ fromUsingOf e a) : v ∈ (finalEnvOf e a).localVals :=
  finalEnvOf_localVals_of_envP e a v
    ((envPOf_localVals_mem e a v).mpr (Or.inr ((envUOf_localVals_mem e a v).mpr (Or.inl h))))

theorem pubs_subset_finalEnv (e : Env) (a : Args) (v : Value)
    (h : v ∈ pubsOf e a) : v ∈ (finalEnvOf e a).localVals :=
  finalEnvOf_localVals_of_envP e a v ((envPOf_localVals_mem e a v).mpr (Or.inl h))

theorem wr_subset_finalEnv (e : Env) (a : Args) (v : Value)
    (hvo : (a.field.model.hasPublic && a.validated_only) = false)
    (hdf : a.df = none ∨ a.field.model.isFeature = false)
    (h : v ∈ wrOf e a) : v ∈ (finalEnvOf e a).localVals := by
  unfold finalEnvOf
  apply hierarchySpec_localVals_mono
  rw [psOf_generic e a hvo hdf]
  simp [saveRecords_localVals_mem, h]

theorem fromdf_subset_finalEnv (e : Env) (a : Args) (d : DataFrame) (v : Value)
    (hvo : (a.field.model.hasPublic && a.validated_only) = false)
    (hdf : a.df = some d) (hfe : a.field.model.isFeature = true)
    (h : v ∈ from_df d) : v ∈ (finalEnvOf e a).localVals := by
  unfold finalEnvOf
  apply hierarchySpec_localVals_mono
  rw [psOf_df e a d hvo hdf hfe]
  simp [saveRecords_localVals_mem, h]

theorem mem_pubsOf_bionty (e : Env) (a : Args) (v : Value)
    (hp : a.field.model.hasPublic = true) :
    v ∈ pubsOf e a ↔ v ∈ remOf e a ∧ e.pub v = true := by
  unfold pubsOf public_reference_stage
  by_cases hl : (remOf e a).length > 0
  · rw [if_pos hl]
    unfold from_values
    simp only [hp, if_true, List.mem_filter, List.mem_dedup, step_pub, envUOf_pub]
  · rw [if_neg hl]
    have : remOf e a = [] := by
      simpa [List.length_eq_zero] using hl
    simp [this]

theorem mem_pubsOf_nopublic (e : Env) (a : Args) (v : Value)
    (hnp : a.field.model.hasPublic = false) :
    v ∈ pubsOf e a ↔ v ∈ remOf e a ∧ v ∈ (envUOf e a).localVals := by
  unfold pubsOf public_reference_stage
  by_cases hl : (remOf e a).length > 0
  · rw [if_pos hl]
    unfold from_values
    simp only [hnp, Bool.false_eq_true, if_false, List.mem_filter, List.mem_dedup,
      step_localVals, decide_eq_true_eq]
  · rw [if_neg hl]
    have : remOf e a = [] := by
      simpa [List.length_eq_zero] using hl
    simp [this]

theorem envUOf_of_fromUsing_nil (e : Env) (a : Args) (h : fromUsingOf e a = []) :
    (envUOf e a).saves = e.saves ∧ (envUOf e a).localVals = e.localVals := by
  unfold envUOf
  unfold fromUsingOf at h
  cases ho : a.usingName with
  | none => rw [usingResult_none]; exact ⟨rfl, rfl⟩
  | some u =>
    by_cases hd : u = "default"
    · rw [hd, usingResult_default]; exact ⟨rfl, rfl⟩
    · rw [ho, usingResult_some _ _ _ hd] at h
      rw [usingResult_some _ _ _ hd]
      simp only at h
      simp only [step_usingVals] at h
      simp [h]

theorem envPOf_of_pubs_nil (e : Env) (a : Args) (h : pubsOf e a = []) :
    (envPOf e a).saves = (envUOf e a).saves ∧
    (envPOf e a).localVals = (envUOf e a).localVals := by
  unfold envPOf
  unfold pubsOf at h
  unfold public_reference_stage at h ⊢
  by_cases hl : (remOf e a).length > 0
  · rw [if_pos hl] at h ⊢
    simp only at h
    simp only [step_localVals, step_usingVals, step_pub, step_verbosity, step_saves,
      step_fromValuesCalls, step_createdPlaceholders, step_parentLinks, step_failAt] at h
    simp [h]
  · rw [if_neg hl]
    exact ⟨rfl, rfl⟩

theorem fromUsingOf_eq_nil_of_registered (x y : Env) (a : Args)
    (husing : x.usingVals = y.usingVals)
    (hloc : ∀ v, v ∈ y.localVals → v ∈ x.localVals)
    (hreg : ∀ v, v ∈ fromUsingOf y a → v ∈ x.localVals) :
    fromUsingOf x a = [] := by
  rw [List.eq_nil_iff_forall_not_mem]
  intro v hv
  cases ho : a.usingName with
  | none => rw [fromUsingOf, ho, usingResult_none] at hv; exact (List.not_mem_nil v) hv
  | some u =>
    by_cases hd : u = "default"
    · rw [fromUsingOf, ho, hd, usingResult_default] at hv
      exact (List.not_mem_nil v) hv
    · rw [mem_fromUsingOf_some x a u v ho hd] at hv
      obtain ⟨hnvx, hux⟩ := hv
      rw [mem_nvOf] at hnvx
      have hny : v ∉ y.localVals := fun hy => hnvx.2 (hloc v hy)
      have : v ∈ fromUsingOf y a :=
        (mem_fromUsingOf_some y a u v ho hd).mpr
          ⟨(mem_nvOf y a v).mpr ⟨hnvx.1, hny⟩, by rw [← husing]; exact hux⟩
      exact hnvx.2 (hreg v this)

theorem pubsOf_eq_nil_bionty_of_registered (x y : Env) (a : Args)
    (hp : a.field.model.hasPublic = true)
    (hpubeq : x.pub = y.pub) (husing : x.usingVals = y.usingVals)
    (hloc : ∀ v, v ∈ y.localVals → v ∈ x.localVals)
    (hreg : ∀ v, v ∈ pubsOf y a → v ∈ x.localVals) :
    pubsOf x a = [] := by
  rw [List.eq_nil_iff_forall_not_mem]
  intro v hv
  rw [mem_pubsOf_bionty x a v hp] at hv
  obtain ⟨hrx, hpx⟩ := hv
  have hnvx := remOf_subset x a v hrx
  rw [mem_nvOf] at hnvx
  have hny : v ∉ y.localVals := fun hy => hnvx.2 (hloc v hy)
  have hnvy : v ∈ nvOf y a := (mem_nvOf y a v).mpr ⟨hnvx.1, hny⟩
  have hry : v ∈ remOf y a := by
    cases ho : a.usingName with
    | none => rw [remOf, ho, usingResult_none]; exact hnvy
    | some u =>
      by_cases hd : u = "default"
      · rw [remOf, ho, hd, usingResult_default]; exact hnvy
      · have := (mem_remOf_some x a u v ho hd).mp hrx
        exact (mem_remOf_some y a u v ho hd).mpr
          ⟨hnvy, by rw [← husing]; exact this.2⟩
  have : v ∈ pubsOf y a :=
    (mem_pubsOf_bionty y a v hp).mpr ⟨hry, by rw [← hpubeq]; exact hpx⟩
  exact hnvx.2 (hreg v this)

theorem pubsOf_eq_nil_nopublic (x : Env) (a : Args)
    (hnp : a.field.model.hasPublic = false)
    (hfu : fromUsingOf x a = []) : pubsOf x a = [] := by
  rw [List.eq_nil_iff_forall_not_mem]
  intro v hv
  rw [mem_pubsOf_nopublic x a v hnp] at hv
  obtain ⟨hr, hu⟩ := hv
  rcases (envUOf_localVals_mem x a v).mp hu with h | h
  · rw [hfu] at h
    exact (List.not_mem_nil v) h
  · have := remOf_subset x a v hr
    rw [mem_nvOf] at this
    exact this.2 h

/-- A reconciliation call whose cross-instance and public stages resolve
nothing, whose registry is not the free-form label registry, and whose
placeholder stage either is skipped or only re-saves already-present
dataframe-derived records, performs zero writes. -/
theorem second_call_saves (e1 : Env) (a : Args) (hf1 : e1.failAt = none)
    (hc : check_if_registry_needs_organism a.field.model a.organism = .ok ())
    (hnu : a.field.model.isULabel = false)
    (hfu : fromUsingOf { e1 with verbosity := "error" } a = [])
    (hpub : pubsOf { e1 with verbosity := "error" } a = [])
    (hph : (a.field.model.hasPublic && a.validated_only) = true ∨
           (∃ d, a.df = some d ∧ a.field.model.isFeature = true ∧
             ∀ v ∈ from_df d, v ∈ e1.localVals)) :
    ((register_labels e1 a).2).saves = e1.saves := by
  by_cases hnv : (inspect e1.localVals a.values).non_validated = []
  · rw [register_labels_early e1 a hf1 hc hnv]
    rfl
  · rw [register_labels_ok e1 a hf1 hc hnv]
    simp only [runSpec_eq]
    show (finalEnvOf { e1 with verbosity := "error" } a).saves = e1.saves
    unfold finalEnvOf
    rw [hierarchySpec_not_ulabel _ _ _ _ _ hnu]
    have hU := envUOf_of_fromUsing_nil { e1 with verbosity := "error" } a hfu
    have hP := envPOf_of_pubs_nil { e1 with verbosity := "error" } a hpub
    rcases hph with hvo | ⟨d, hdf, hfe, hsub⟩
    · rw [psOf_validatedOnly _ _ hvo]
      simp [hP.1, hU.1]
    · have hvo' : (a.field.model.hasPublic && a.validated_only) = false := by
        cases hk : a.field.model <;>
          simp_all [RegistryKind.hasPublic, RegistryKind.isFeature]
      rw [psOf_df _ _ d hvo' hdf hfe]
      have hsr : saveRecords ((envPOf { e1 with verbosity := "error" } a).step)
          (from_df d) = (envPOf { e1 with verbosity := "error" } a).step := by
        apply saveRecords_eq_self
        intro v hv
        rw [step_localVals, hP.2, hU.2]
        exact hsub v hv
      simp [hsr, hP.1, hU.1]

/-- C9: reconciling the same `(values, field, feature_name)` twice with no
intervening state change performs zero additional writes on the second call
(the write counter does not move); and the public-reference construction
stage is skipped entirely — not invoked, no write, no state change at all —
whenever the set of values reaching it is empty. -/
theorem idempotence (e : Env) (a : Args) (hf : e.failAt = none)
    (hc : check_if_registry_needs_organism a.field.model a.organism = .ok ()) :
    ((register_labels ((register_labels e a).2) a).2).saves =
      ((register_labels e a).2).saves ∧
    (∀ e2 r, public_reference_stage e2 r [] = ([], e2)) := by
  refine ⟨?_, fun e2 r => rfl⟩
  by_cases hnv : (inspect e.localVals a.values).non_validated = []
  · rw [register_labels_early e a hf hc hnv]
    have hf1 : (e.step).failAt = none := by simpa using hf
    have hnv1 : (inspect (e.step).localVals a.values).non_validated = [] := hnv
    rw [register_labels_early e.step a hf1 hc hnv1]
    rfl
  · rw [register_labels_ok e a hf hc hnv]
    have main : ∀ e1 : Env, e1.failAt = none →
        e1.localVals = (finalEnvOf { e with verbosity := "error" } a).localVals →
        e1.usingVals = e.usingVals → e1.pub = e.pub →
        ((register_labels e1 a).2).saves = e1.saves := by
      intro e1 hf1 hloc husing hpubeq
      have hlocmono : ∀ v, v ∈ e.localVals → v ∈ e1.localVals := by
        intro v hv
        rw [hloc]
        exact finalEnvOf_localVals_mono { e with verbosity := "error" } a v hv
      have hfureg : ∀ v, v ∈ fromUsingOf { e with verbosity := "error" } a →
          v ∈ e1.localVals := by
        intro v hv
        rw [hloc]
        exact fromUsing_subset_finalEnv _ a v hv
      have hpubreg : ∀ v, v ∈ pubsOf { e with verbosity := "error" } a →
          v ∈ e1.localVals := by
        intro v hv
        rw [hloc]
        exact pubs_subset_finalEnv _ a v hv
      have hfu2 : fromUsingOf { e1 with verbosity := "error" } a = [] := by
        apply fromUsingOf_eq_nil_of_registered { e1 with verbosity := "error" }
          { e with verbosity := "error" } a
        · exact husing
        · intro v hv
          exact hlocmono v hv
        · intro v hv
          exact hfureg v hv
      by_cases hvo : (a.field.model.hasPublic && a.validated_only) = true
      · -- validated-only run of a public-backed registry
        have hp : a.field.model.hasPublic = true := (Bool.and_eq_true_iff.mp hvo).1
        have hnu : a.field.model.isULabel = false := by
          cases hk : a.field.model <;>
            simp_all [RegistryKind.hasPublic, RegistryKind.isULabel]
        have hpub2 : pubsOf { e1 with verbosity := "error" } a = [] := by
          apply pubsOf_eq_nil_bionty_of_registered { e1 with verbosity := "error" }
            { e with verbosity := "error" } a hp
          · exact hpubeq
          · exact husing
          · intro v hv
            exact hlocmono v hv
          · intro v hv
            exact hpubreg v hv
        exact second_call_saves e1 a hf1 hc hnu hfu2 hpub2 (Or.inl hvo)
      · have hvo' : (a.field.model.hasPublic && a.validated_only) = false := by
          revert hvo
          cases a.field.model.hasPublic && a.validated_only <;> simp
        by_cases hdf : a.df = none ∨ a.field.model.isFeature = false
        · -- generic placeholder path: everything was registered, second call
          -- exits on full validation
          have he2 : (inspect e1.localVals a.values).non_validated = [] := by
            show (a.values.dedup.filter fun v => decide (v ∉ e1.localVals)) = []
            rw [List.filter_eq_nil_iff]
            intro v hv
            simp only [decide_eq_true_eq, Decidable.not_not]
            by_cases hl : v ∈ e.localVals
            · exact hlocmono v hl
            · have hnvE : v ∈ nvOf { e with verbosity := "error" } a :=
                (mem_nvOf _ a v).mpr ⟨List.mem_dedup.mp hv, hl⟩
              rcases (nvOf_partition _ a v).mp hnvE with hFU | hR
              · exact hfureg v hFU
              · rcases (rem_partition _ a v).mp hR with hP | hW
                · exact hpubreg v hP
                · rw [hloc]
                  exact wr_subset_finalEnv _ a v hvo' hdf hW
          rw [register_labels_early e1 a hf1 hc he2]
          rfl
        · -- dataframe-derived feature path: the placeholder stage re-saves
          -- already-present records
          rcases hd : a.df with _ | d
          · exact absurd (Or.inl hd) hdf
          have hfe : a.field.model.isFeature = true := by
            revert hdf
            cases a.field.model.isFeature <;> simp [hd]
          have hnu : a.field.model.isULabel = false := by
            cases hk : a.field.model <;>
              simp_all [RegistryKind.isFeature, RegistryKind.isULabel]
          have hnp : a.field.model.hasPublic = false := by
            cases hk : a.field.model <;>
              simp_all [RegistryKind.isFeature, RegistryKind.hasPublic]
          have hpub2 : pubsOf { e1 with verbosity := "error" } a = [] :=
            pubsOf_eq_nil_nopublic _ a hnp hfu2
          apply second_call_saves e1 a hf1 hc hnu hfu2 hpub2
          refine Or.inr ⟨d, hd, hfe, ?_⟩
          intro v hv
          rw [hloc]
          exact fromdf_subset_finalEnv _ a d v hvo' hd hfe hv
    refine main _ ?_ ?_ ?_ ?_
    · simp [runSpec_eq, finalEnvOf_failAt, hf]
    · simp [runSpec_eq]
    · simp [runSpec_eq, finalEnvOf_usingVals]
    · simp [runSpec_eq, finalEnvOf_pub]

/-- C9, witness: reconciling the §8 scenario twice performs zero additional
writes on the second call. -/
theorem idempotence_witness :
    scenarioEnv.failAt = none ∧
    ((register_labels ((register_labels scenarioEnv scenarioArgs).2)
        scenarioArgs).2).saves =
      ((register_labels scenarioEnv scenarioArgs).2).saves :=
  ⟨rfl, (idempotence scenarioEnv scenarioArgs rfl rfl).1⟩

end LaminDB
